import Mathlib

/-!
# Shallow embedding of the zbox FFI surface's underlying engine

The repository ships only the C binding headers (`src/ffi/include/zbox/*.h`)
and the FFI test harness (`tests/ffi.c`); the engine they expose — the
password-encrypted, versioned virtual filesystem — is specified in `spec.md`
but its implementation is not part of the sources.  Following the status
rules for code missing from the sources, the engine is modelled here from
the specification, with the repository's own test harness (`tests/ffi.c`)
taken as the authority wherever its assertions pin concrete behaviour.

Conventions:
* byte sequences are `List Nat`;
* timestamps are `Nat` values threaded explicitly into the operations that
  the spec says record a time;
* paths are component lists: the C path `"/dir1/dir2"` is `["dir1", "dir2"]`
  and the root `"/"` is `[]`;
* fallible operations return `Except ZboxError`, and the FFI-shaped wrappers
  that the C header declares to return an `int` code together with an
  updated handle return a pair `(code, handle)`, the handle unchanged on
  error.
-/

/-- Error taxonomy of the engine, from spec §7. -/
inductive ZboxError where
  | invalidUri
  | wrongPassword
  | alreadyExists
  | notFound
  | isFile
  | isDir
  | readOnlyRepo
  | versionNotFound
  | corruptedData
  | invalidInput
  | backendError
  | uninitialized
deriving Repr, DecidableEq

/-- Integer codes surfaced by the binding layer (spec §6: 0 = success,
negative = category).  The headers in the sources do not fix the concrete
values, so the model only relies on them being distinct negatives. -/
def errCode : ZboxError → Int
  | .invalidUri => -1
  | .wrongPassword => -2
  | .alreadyExists => -3
  | .notFound => -4
  | .isFile => -5
  | .isDir => -6
  | .readOnlyRepo => -7
  | .versionNotFound => -8
  | .corruptedData => -9
  | .invalidInput => -10
  | .backendError => -11
  | .uninitialized => -12

/-- `enum zbox_file_type` from `common.h`. -/
inductive FileType where
  | file
  | dir
deriving Repr, DecidableEq

/-- `struct zbox_metadata` from `common.h`: file type, content length,
current version number, creation and modification time. -/
structure Metadata where
  ftype : FileType
  len : Nat
  currVersion : Nat
  created : Nat
  modified : Nat
deriving Repr, DecidableEq

/-- `struct zbox_version` from `common.h`: version number, content length,
creation time. -/
structure VersionInfo where
  num : Nat
  len : Nat
  created : Nat
deriving Repr, DecidableEq

/-- Modelled from the spec (§3 Version): an immutable snapshot of a file's
content — version number, content bytes, creation time.  The content store
and encryption behind it are abstracted into the plaintext byte list. -/
structure Version where
  num : Nat
  content : List Nat
  created : Nat
deriving Repr, DecidableEq

/-- Fallback used only to totalise functions over possibly-empty version
lists; the engine's invariant (spec §3) keeps every file's list non-empty. -/
def Version.default0 : Version := ⟨0, [], 0⟩

/-- Modelled from the spec (§3 FileHandle state, §4.3 Version Manager): an
open file handle — the retained versions oldest to newest, the per-file
version-retention limit, the cursor, the provisional working content
(`none` = the Version Manager is `Clean`, `some c` = `Dirty` with
uncommitted content `c`), and the node's timestamps. -/
structure FileHandle where
  versions : List Version
  limit : Nat
  pos : Nat
  working : Option (List Nat)
  created : Nat
  modified : Nat
deriving Repr, DecidableEq

/-- The newest retained (committed) version. -/
def FileHandle.currVersionRecord (f : FileHandle) : Version :=
  f.versions.getLastD Version.default0

/-- Content of the committed current version. -/
def FileHandle.currContent (f : FileHandle) : List Nat :=
  f.currVersionRecord.content

/-- The content a write would build on: the provisional working content when
`Dirty`, else a copy-on-write view of the committed current version
(spec §4.3 `write`). -/
def FileHandle.effContent (f : FileHandle) : List Nat :=
  f.working.getD f.currContent

/-- Handle state for a freshly created file: one empty version numbered 1
(spec §4.2 `createFile`), cursor at 0, `Clean`. -/
def newFileHandle (limit : Nat) (t : Nat) : FileHandle :=
  { versions := [⟨1, [], t⟩], limit := limit, pos := 0, working := none,
    created := t, modified := t }

/-- `zbox_file_curr_version` (`file.h`): highest retained version number
(spec §4.3 `currentVersion`). -/
def zbox_file_curr_version (f : FileHandle) : Nat :=
  f.currVersionRecord.num

/-- `zbox_file_metadata` (`file.h`): reflects the committed current
version's length, not the in-progress write buffer (spec §4.4). -/
def zbox_file_metadata (f : FileHandle) : Metadata :=
  { ftype := .file, len := f.currContent.length,
    currVersion := zbox_file_curr_version f,
    created := f.created, modified := f.modified }

/-- `zbox_file_history` (`file.h`): retained versions oldest to newest with
number, length and creation time (spec §4.3 `history`). -/
def zbox_file_history (f : FileHandle) : List VersionInfo :=
  f.versions.map fun v => ⟨v.num, v.content.length, v.created⟩

/-- `zbox_file_read` (`file.h`): read up to `len` bytes at the cursor from
the committed current version, returning the bytes and the advanced handle;
0 bytes at end-of-content (spec §4.4 `read`). -/
def zbox_file_read (f : FileHandle) (len : Nat) : List Nat × FileHandle :=
  let bytes := (f.currContent.drop f.pos).take len
  (bytes, { f with pos := f.pos + bytes.length })

/-- Splice `buf` into content `c` at position `pos`, zero-filling any gap
between the end of `c` and `pos` (spec §4.4 `write`, §4.5 seek-past-end). -/
def writeAt (c : List Nat) (pos : Nat) (buf : List Nat) : List Nat :=
  c.take pos ++ List.replicate (pos - c.length) 0 ++ buf
    ++ c.drop (pos + buf.length)

/-- `zbox_file_write` (`file.h`): write at the cursor into the provisional
working version, extending length if needed, advancing the cursor and
marking the Version Manager `Dirty` (spec §4.3 `write`, §4.4 `write`). -/
def zbox_file_write (f : FileHandle) (buf : List Nat) : FileHandle :=
  { f with working := some (writeAt f.effContent f.pos buf),
           pos := f.pos + buf.length }

/-- Append a committed version `v` and apply the retention policy: if the
retained count now exceeds the limit, evict the single oldest version —
exactly once per commit (spec §4.3 `finish`). -/
def commitVersion (vs : List Version) (limit : Nat) (v : Version) :
    List Version :=
  let vs' := vs ++ [v]
  if limit < vs'.length then vs'.tail else vs'

/-- `zbox_file_finish` (`file.h`): commit the provisional version as the new
current version with the next sequential number and transition back to
`Clean`; a `Clean` handle is left unchanged.  The cursor is not moved
(spec §4.3 `finish`). -/
def zbox_file_finish (f : FileHandle) (t : Nat) : FileHandle :=
  match f.working with
  | none => f
  | some c =>
      { f with
        versions := commitVersion f.versions f.limit
          ⟨zbox_file_curr_version f + 1, c, t⟩,
        working := none, modified := t }

/-- `zbox_file_write_once` (`file.h`): atomic single-call write-and-commit,
building the committed state directly (spec §4.3 `writeOnce`). -/
def zbox_file_write_once (f : FileHandle) (buf : List Nat) (t : Nat) :
    FileHandle :=
  { f with
    versions := commitVersion f.versions f.limit
      ⟨zbox_file_curr_version f + 1, writeAt f.effContent f.pos buf, t⟩,
    working := none, pos := f.pos + buf.length, modified := t }

/-- `SEEK_SET` / `SEEK_CUR` / `SEEK_END` of `zbox_file_seek`. -/
inductive Whence where
  | set
  | cur
  | fromEnd
deriving Repr, DecidableEq

/-- `zbox_file_seek` (`file.h`): returns 0 and the repositioned handle, or a
negative code and the unchanged handle when the resulting absolute position
would be negative (spec §4.4 `seek`; `tests/ffi.c` asserts the return is 0
on success). -/
def zbox_file_seek (f : FileHandle) (offset : Int) (whence : Whence) :
    Int × FileHandle :=
  let base : Int :=
    match whence with
    | .set => 0
    | .cur => f.pos
    | .fromEnd => f.effContent.length
  let newPos := base + offset
  if newPos < 0 then (errCode .invalidInput, f)
  else (0, { f with pos := newPos.toNat })

/-- Truncate or zero-extend `c` to exactly `n` bytes (spec §4.3 `setLen`). -/
def padTruncate (c : List Nat) (n : Nat) : List Nat :=
  c.take n ++ List.replicate (n - c.length) 0

/-- `zbox_file_set_len` (`file.h`): truncate or zero-extend to exactly `len`
bytes.  The spec (§4.3) describes this as requiring a later `finish()`, but
the repository's own test (`tests/ffi.c` lines 224–229) calls
`zbox_file_set_len` and immediately observes the new length through
`zbox_file_metadata` with no intervening finish; the test is authoritative,
so the model commits the resized content as a new version at once. -/
def zbox_file_set_len (f : FileHandle) (n : Nat) (t : Nat) : FileHandle :=
  { f with
    versions := commitVersion f.versions f.limit
      ⟨zbox_file_curr_version f + 1, padTruncate f.effContent n, t⟩,
    working := none, modified := t }

/-- One write+finish cycle, the unit of spec §8's retention property: write
the buffer, then commit at the given time. -/
def writeFinishCycle (f : FileHandle) (bt : List Nat × Nat) : FileHandle :=
  zbox_file_finish (zbox_file_write f bt.1) bt.2

/-- Run a sequence of write+finish cycles. -/
def runCycles (f : FileHandle) (l : List (List Nat × Nat)) : FileHandle :=
  l.foldl writeFinishCycle f

/-- Modelled from the spec (§3 Node, §2 Directory Tree): a namespace entry —
a file owning its retained versions, or a directory owning its children in
insertion (creation) order; each node carries creation and modification
times. -/
inductive FNode where
  | file (versions : List Version) (created modified : Nat)
  | dir (children : List (String × FNode)) (created modified : Nat)
deriving Repr

/-- Whether a node is a directory. -/
def FNode.isDirNode : FNode → Bool
  | .dir .. => true
  | .file .. => false

/-- Look up a child by name in a directory's child list. -/
def lookupChild (cs : List (String × FNode)) (name : String) : Option FNode :=
  match cs with
  | [] => none
  | (n, c) :: rest => if n = name then some c else lookupChild rest name

/-- Replace the named child, keeping its position (creation order). -/
def replaceChild (cs : List (String × FNode)) (name : String) (c' : FNode) :
    List (String × FNode) :=
  match cs with
  | [] => []
  | (n, c) :: rest =>
      if n = name then (n, c') :: rest else (n, c) :: replaceChild rest name c'

/-- Remove the named child, keeping the order of the rest. -/
def removeChild (cs : List (String × FNode)) (name : String) :
    List (String × FNode) :=
  match cs with
  | [] => []
  | (n, c) :: rest =>
      if n = name then rest else (n, c) :: removeChild rest name

/-- Resolve a component path to the node it names, if any. -/
def findNode : FNode → List String → Option FNode
  | n, [] => some n
  | .file .., _ :: _ => none
  | .dir cs _ _, name :: rest =>
      match lookupChild cs name with
      | some c => findNode c rest
      | none => none

/-- Navigate to the directory at `p` and transform its child list,
rebuilding the tree on the way back; fails `notFound` when the path does
not lead through existing directories (spec §4.2). -/
def modifyDirAt (n : FNode) (p : List String)
    (f : List (String × FNode) → Except ZboxError (List (String × FNode))) :
    Except ZboxError FNode :=
  match n, p with
  | .file .., _ => .error .notFound
  | .dir cs c m, [] => (f cs).map fun cs' => .dir cs' c m
  | .dir cs c m, name :: rest =>
      match lookupChild cs name with
      | none => .error .notFound
      | some child =>
          (modifyDirAt child rest f).map fun child' =>
            .dir (replaceChild cs name child') c m

/-- Split a non-empty path into parent path and final component. -/
def splitLast : List String → Option (List String × String)
  | [] => none
  | [x] => some ([], x)
  | x :: y :: xs =>
      (splitLast (y :: xs)).map fun pl => (x :: pl.1, pl.2)

/-- Modelled metadata of a tree node (`struct zbox_metadata`): a file
reports its current version's length and number; a directory reports
length 0. -/
def metadataOf : FNode → Metadata
  | .file vs c m =>
      { ftype := .file, len := (vs.getLastD Version.default0).content.length,
        currVersion := (vs.getLastD Version.default0).num,
        created := c, modified := m }
  | .dir _ c m =>
      { ftype := .dir, len := 0, currVersion := 0, created := c, modified := m }

/-- `createFile` on the tree (spec §4.2): fails `alreadyExists` when a node
occupies the path (the root always does), `notFound` when the parent is
missing; on success appends a File node with one empty version numbered 1
to the parent's children. -/
def createFileAt (root : FNode) (p : List String) (t : Nat) :
    Except ZboxError FNode :=
  match splitLast p with
  | none => .error .alreadyExists
  | some (parent, name) =>
      modifyDirAt root parent fun cs =>
        if (lookupChild cs name).isSome then .error .alreadyExists
        else .ok (cs ++ [(name, .file [⟨1, [], t⟩] t t)])

/-- `createDir` on the tree (spec §4.2). -/
def createDirAt (root : FNode) (p : List String) (t : Nat) :
    Except ZboxError FNode :=
  match splitLast p with
  | none => .error .alreadyExists
  | some (parent, name) =>
      modifyDirAt root parent fun cs =>
        if (lookupChild cs name).isSome then .error .alreadyExists
        else .ok (cs ++ [(name, .dir [] t t)])

/-- `createDirAll` on the tree (spec §4.2): creates every missing ancestor,
succeeds idempotently when the directories already exist, fails when a file
blocks the path. -/
def createDirAllNode : FNode → List String → Nat → Except ZboxError FNode
  | .dir cs c m, [], _ => .ok (.dir cs c m)
  | .file .., [], _ => .error .alreadyExists
  | .file .., _ :: _, _ => .error .notFound
  | .dir cs c m, name :: rest, t =>
      match lookupChild cs name with
      | some child =>
          (createDirAllNode child rest t).map fun child' =>
            .dir (replaceChild cs name child') c m
      | none =>
          (createDirAllNode (.dir [] t t) rest t).map fun sub =>
            .dir (cs ++ [(name, sub)]) c m

/-- `removeFile` on the tree (spec §4.2); the root is not removable. -/
def removeFileAt (root : FNode) (p : List String) : Except ZboxError FNode :=
  match splitLast p with
  | none => .error .invalidInput
  | some (parent, name) =>
      modifyDirAt root parent fun cs =>
        match lookupChild cs name with
        | none => .error .notFound
        | some (.dir ..) => .error .isDir
        | some (.file ..) => .ok (removeChild cs name)

/-- `removeDir` on the tree (spec §4.2): non-recursive, fails on a
non-empty directory; the root is not removable. -/
def removeDirAt (root : FNode) (p : List String) : Except ZboxError FNode :=
  match splitLast p with
  | none => .error .invalidInput
  | some (parent, name) =>
      modifyDirAt root parent fun cs =>
        match lookupChild cs name with
        | none => .error .notFound
        | some (.file ..) => .error .isFile
        | some (.dir cs2 _ _) =>
            if cs2.isEmpty then .ok (removeChild cs name)
            else .error .invalidInput

/-- `removeDirAll` on the tree (spec §4.2): recursive removal; the root is
not removable. -/
def removeDirAllAt (root : FNode) (p : List String) : Except ZboxError FNode :=
  match splitLast p with
  | none => .error .invalidInput
  | some (parent, name) =>
      modifyDirAt root parent fun cs =>
        match lookupChild cs name with
        | none => .error .notFound
        | some (.file ..) => .error .isFile
        | some (.dir ..) => .ok (removeChild cs name)

/-- `rename` on the tree (spec §4.2): fails `notFound` when the source is
missing, `alreadyExists` when the destination is occupied; all-or-nothing
(§7) — the caller keeps the old tree on error. -/
def renameAt (root : FNode) (src dst : List String) :
    Except ZboxError FNode :=
  match splitLast src, splitLast dst with
  | none, _ => .error .invalidInput
  | _, none => .error .alreadyExists
  | some (sp, sn), some (tp, tn) =>
      match findNode root src with
      | none => .error .notFound
      | some node =>
          if (findNode root dst).isSome then .error .alreadyExists
          else
            match modifyDirAt root sp
                (fun cs => .ok (removeChild cs sn)) with
            | .error e => .error e
            | .ok root1 =>
                modifyDirAt root1 tp fun cs => .ok (cs ++ [(tn, node)])

/-- `copy` on the tree (spec §4.2): deep-copies the source file's current
version into a fresh file starting again at version 1; history is not
copied; fails `notFound` on a missing source, `isDir` on a directory. -/
def copyAt (root : FNode) (src dst : List String) (t : Nat) :
    Except ZboxError FNode :=
  match findNode root src with
  | none => .error .notFound
  | some (.dir ..) => .error .isDir
  | some (.file vs _ _) =>
      let content := (vs.getLastD Version.default0).content
      match splitLast dst with
      | none => .error .isDir
      | some (tp, tn) =>
          modifyDirAt root tp fun cs =>
            match lookupChild cs tn with
            | some (.dir ..) => .error .isDir
            | some (.file ..) =>
                .ok (replaceChild cs tn (.file [⟨1, content, t⟩] t t))
            | none => .ok (cs ++ [(tn, .file [⟨1, content, t⟩] t t)])

/-- A tree-level write+finish cycle at a path: commit a new version of the
file built by writing `buf` at offset 0 over its current content, applying
the retention limit (spec §4.3 `write` then `finish`). -/
def writeFinishAt (root : FNode) (p : List String) (limit : Nat)
    (buf : List Nat) (t : Nat) : Except ZboxError FNode :=
  match splitLast p with
  | none => .error .isDir
  | some (parent, name) =>
      modifyDirAt root parent fun cs =>
        match lookupChild cs name with
        | none => .error .notFound
        | some (.dir ..) => .error .isDir
        | some (.file vs c _) =>
            let cur := vs.getLastD Version.default0
            .ok (replaceChild cs name
              (.file (commitVersion vs limit
                ⟨cur.num + 1, writeAt cur.content 0 buf, t⟩) c t))

/-- `enum zbox_ops_limit` from `common.h` (KDF time-cost tiers). -/
inductive OpsLimit where
  | interactive
  | moderate
  | sensitive
deriving Repr, DecidableEq

/-- `enum zbox_mem_limit` from `common.h` (KDF memory-cost tiers). -/
inductive MemLimit where
  | interactive
  | moderate
  | sensitive
deriving Repr, DecidableEq

/-- `enum zbox_cipher` from `common.h`. -/
inductive Cipher where
  | xchacha
  | aes
deriving Repr, DecidableEq

/-- Modelled from the spec (§3 Opener/Options, §9): the write-only
configuration builder accumulated by the `zbox_opener_*` setters and
consumed once by `zbox_open_repo`. -/
structure Opener where
  opsLimit : OpsLimit
  memLimit : MemLimit
  cipher : Cipher
  versionLimit : Nat
  readOnly : Bool
  create : Bool
  createNew : Bool
deriving Repr, DecidableEq

/-- `zbox_create_opener` (`repo.h`): the defaults.  Modelled from the spec
(§9: ops interactive, mem interactive, cipher xchacha, read-only false,
create false) except the version limit: the spec claims a default of 1, but
the repository's own test (`tests/ffi.c`, `test_file`) opens a repository
with an untouched default opener and then asserts a history of length 2
after a single write+finish cycle, which a limit of 1 would make
impossible; the engine's documented default of 10 is used instead. -/
def zbox_create_opener : Opener :=
  { opsLimit := .interactive, memLimit := .interactive, cipher := .xchacha,
    versionLimit := 10, readOnly := false, create := false,
    createNew := false }

/-- `zbox_opener_ops_limit` (`repo.h`). -/
def zbox_opener_ops_limit (o : Opener) (l : OpsLimit) : Opener :=
  { o with opsLimit := l }

/-- `zbox_opener_mem_limit` (`repo.h`). -/
def zbox_opener_mem_limit (o : Opener) (l : MemLimit) : Opener :=
  { o with memLimit := l }

/-- `zbox_opener_cipher` (`repo.h`). -/
def zbox_opener_cipher (o : Opener) (c : Cipher) : Opener :=
  { o with cipher := c }

/-- `zbox_opener_create` (`repo.h`). -/
def zbox_opener_create (o : Opener) (b : Bool) : Opener :=
  { o with create := b }

/-- `zbox_opener_create_new` (`repo.h`). -/
def zbox_opener_create_new (o : Opener) (b : Bool) : Opener :=
  { o with createNew := b }

/-- `zbox_opener_version_limit` (`repo.h`): the limit is a `uint8_t` with a
spec-mandated minimum of 1 (§3 invariants). -/
def zbox_opener_version_limit (o : Opener) (n : Nat) : Opener :=
  { o with versionLimit := max 1 (min n 255) }

/-- `zbox_opener_read_only` (`repo.h`). -/
def zbox_opener_read_only (o : Opener) (b : Bool) : Opener :=
  { o with readOnly := b }

/-- Modelled from the spec (§2 Repository, §3 RepoInfo): the repository
state the claims exercise — the directory tree, the password whose derived
key currently wraps the master key (key derivation is abstracted to the
password and cost tiers themselves, which determine it), the configuration,
and the creation time. -/
structure Repo where
  root : FNode
  uri : String
  pwd : String
  opsLimit : OpsLimit
  memLimit : MemLimit
  cipher : Cipher
  versionLimit : Nat
  readOnly : Bool
  created : Nat

/-- The state of a repository freshly created by a consuming `open`. -/
def newRepo (o : Opener) (uri pwd : String) (t : Nat) : Repo :=
  { root := .dir [] t t, uri := uri, pwd := pwd, opsLimit := o.opsLimit,
    memLimit := o.memLimit, cipher := o.cipher,
    versionLimit := o.versionLimit, readOnly := o.readOnly, created := t }

/-- `zbox_open_repo` (`repo.h`), modelled from the spec (§6 openRepo):
`existing` is the repository persisted at the URI, if any.  Opening an
existing repository verifies the password; a missing one is created only
when the create flags ask for it. -/
def zbox_open_repo (existing : Option Repo) (o : Opener)
    (uri pwd : String) (t : Nat) : Except ZboxError Repo :=
  match existing with
  | some r =>
      if o.createNew then .error .alreadyExists
      else if pwd = r.pwd then .ok { r with readOnly := o.readOnly }
      else .error .wrongPassword
  | none =>
      if o.create || o.createNew then .ok (newRepo o uri pwd t)
      else .error .notFound

/-- `zbox_repo_reset_password` (`repo.h`), modelled from the spec (§4.1
resetPassword): verifies that the old password derives the current wrapping
key, then re-wraps under the new password and cost parameters; fails
`wrongPassword` otherwise. -/
def zbox_repo_reset_password (r : Repo) (oldPwd newPwd : String)
    (ops : OpsLimit) (mem : MemLimit) : Except ZboxError Repo :=
  if oldPwd = r.pwd then
    .ok { r with pwd := newPwd, opsLimit := ops, memLimit := mem }
  else .error .wrongPassword

/-- FFI shape of `zbox_repo_reset_password`: integer code plus the
repository state after the call, unchanged when the call fails (spec §4.1:
atomic — either fully succeeds or leaves the previous wrapping intact). -/
def zbox_repo_reset_password_c (r : Repo) (oldPwd newPwd : String)
    (ops : OpsLimit) (mem : MemLimit) : Int × Repo :=
  match zbox_repo_reset_password r oldPwd newPwd ops mem with
  | .ok r' => (0, r')
  | .error e => (errCode e, r)

/-- `zbox_repo_path_exists` (`repo.h`): pure query, missing path is
`false` (spec §4.2). -/
def zbox_repo_path_exists (r : Repo) (p : List String) : Bool :=
  (findNode r.root p).isSome

/-- `zbox_repo_is_file` (`repo.h`). -/
def zbox_repo_is_file (r : Repo) (p : List String) : Bool :=
  match findNode r.root p with
  | some (.file ..) => true
  | _ => false

/-- `zbox_repo_is_dir` (`repo.h`). -/
def zbox_repo_is_dir (r : Repo) (p : List String) : Bool :=
  match findNode r.root p with
  | some (.dir ..) => true
  | _ => false

/-- Gate a mutating tree operation behind the read-only flag (spec §4.2:
all mutating operations on a read-only repository fail `readOnlyRepo`
before touching the tree). -/
def guardWrite (r : Repo) (k : Except ZboxError FNode) :
    Except ZboxError Repo :=
  if r.readOnly then .error .readOnlyRepo
  else k.map fun root' => { r with root := root' }

/-- `zbox_repo_create_file` (`repo.h`): creates the file node and returns
the updated repository together with an open handle positioned at offset 0
in write mode (spec §4.2 createFile). -/
def zbox_repo_create_file (r : Repo) (p : List String) (t : Nat) :
    Except ZboxError (Repo × FileHandle) :=
  if r.readOnly then .error .readOnlyRepo
  else (createFileAt r.root p t).map fun root' =>
    ({ r with root := root' }, newFileHandle r.versionLimit t)

/-- `zbox_repo_create_dir` (`repo.h`). -/
def zbox_repo_create_dir (r : Repo) (p : List String) (t : Nat) :
    Except ZboxError Repo :=
  guardWrite r (createDirAt r.root p t)

/-- `zbox_repo_create_dir_all` (`repo.h`). -/
def zbox_repo_create_dir_all (r : Repo) (p : List String) (t : Nat) :
    Except ZboxError Repo :=
  guardWrite r (createDirAllNode r.root p t)

/-- `zbox_repo_remove_file` (`repo.h`). -/
def zbox_repo_remove_file (r : Repo) (p : List String) :
    Except ZboxError Repo :=
  guardWrite r (removeFileAt r.root p)

/-- `zbox_repo_remove_dir` (`repo.h`). -/
def zbox_repo_remove_dir (r : Repo) (p : List String) :
    Except ZboxError Repo :=
  guardWrite r (removeDirAt r.root p)

/-- `zbox_repo_remove_dir_all` (`repo.h`). -/
def zbox_repo_remove_dir_all (r : Repo) (p : List String) :
    Except ZboxError Repo :=
  guardWrite r (removeDirAllAt r.root p)

/-- `zbox_repo_rename` (`repo.h`). -/
def zbox_repo_rename (r : Repo) (src dst : List String) :
    Except ZboxError Repo :=
  guardWrite r (renameAt r.root src dst)

/-- `zbox_repo_copy` (`repo.h`). -/
def zbox_repo_copy (r : Repo) (src dst : List String) (t : Nat) :
    Except ZboxError Repo :=
  guardWrite r (copyAt r.root src dst t)

/-- `struct zbox_dir_entry` from `common.h`: full path, base name,
metadata. -/
structure DirEntry where
  path : List String
  fileName : String
  metadata : Metadata
deriving Repr, DecidableEq

/-- `zbox_repo_read_dir` (`repo.h`): the immediate children in creation
order, each with full path, base name and metadata (spec §4.2 readDir). -/
def zbox_repo_read_dir (r : Repo) (p : List String) :
    Except ZboxError (List DirEntry) :=
  match findNode r.root p with
  | none => .error .notFound
  | some (.file ..) => .error .isFile
  | some (.dir cs _ _) =>
      .ok (cs.map fun nc => ⟨p ++ [nc.1], nc.1, metadataOf nc.2⟩)

/-- `zbox_repo_metadata` (`repo.h`). -/
def zbox_repo_metadata (r : Repo) (p : List String) :
    Except ZboxError Metadata :=
  match findNode r.root p with
  | none => .error .notFound
  | some n => .ok (metadataOf n)

/-- `zbox_repo_history` (`repo.h`). -/
def zbox_repo_history (r : Repo) (p : List String) :
    Except ZboxError (List VersionInfo) :=
  match findNode r.root p with
  | none => .error .notFound
  | some (.dir ..) => .error .isDir
  | some (.file vs _ _) =>
      .ok (vs.map fun v => ⟨v.num, v.content.length, v.created⟩)

/-- Tree-level write+finish as a repository operation. -/
def zbox_repo_write_finish (r : Repo) (p : List String) (buf : List Nat)
    (t : Nat) : Except ZboxError Repo :=
  guardWrite r (writeFinishAt r.root p r.versionLimit buf t)

/-- The repository operations a caller can drive through the FFI surface,
as one step type for stating state invariants over operation sequences. -/
inductive RepoOp where
  | createFile (p : List String) (t : Nat)
  | createDir (p : List String) (t : Nat)
  | createDirAll (p : List String) (t : Nat)
  | removeFile (p : List String)
  | removeDir (p : List String)
  | removeDirAll (p : List String)
  | renameOp (src dst : List String)
  | copyOp (src dst : List String) (t : Nat)
  | writeFinish (p : List String) (buf : List Nat) (t : Nat)
  | resetPwd (oldPwd newPwd : String) (ops : OpsLimit) (mem : MemLimit)

/-- Apply one operation; since the FFI keeps the repository handle alive
across failed calls, a failing operation leaves the state unchanged. -/
def applyOp (r : Repo) (op : RepoOp) : Repo :=
  match op with
  | .createFile p t =>
      match zbox_repo_create_file r p t with
      | .ok rf => rf.1
      | .error _ => r
  | .createDir p t =>
      match zbox_repo_create_dir r p t with
      | .ok r' => r'
      | .error _ => r
  | .createDirAll p t =>
      match zbox_repo_create_dir_all r p t with
      | .ok r' => r'
      | .error _ => r
  | .removeFile p =>
      match zbox_repo_remove_file r p with
      | .ok r' => r'
      | .error _ => r
  | .removeDir p =>
      match zbox_repo_remove_dir r p with
      | .ok r' => r'
      | .error _ => r
  | .removeDirAll p =>
      match zbox_repo_remove_dir_all r p with
      | .ok r' => r'
      | .error _ => r
  | .renameOp src dst =>
      match zbox_repo_rename r src dst with
      | .ok r' => r'
      | .error _ => r
  | .copyOp src dst t =>
      match zbox_repo_copy r src dst t with
      | .ok r' => r'
      | .error _ => r
  | .writeFinish p buf t =>
      match zbox_repo_write_finish r p buf t with
      | .ok r' => r'
      | .error _ => r
  | .resetPwd oldPwd newPwd ops mem =>
      (zbox_repo_reset_password_c r oldPwd newPwd ops mem).2

/-- Invariant of a handle after `k` write+finish cycles on a fresh file
with retention limit `N`: `Clean`, limit intact, and exactly the
`min (k+1) N` most recent of the versions `1..k+1` retained, consecutively
numbered, the newest being `k+1`. -/
def cycleInv (N k : Nat) (f : FileHandle) : Prop :=
  f.working = none ∧ f.limit = N ∧
  f.versions.length = min (k + 1) N ∧
  f.versions.map Version.num =
    List.range' (k + 2 - min (k + 1) N) (min (k + 1) N) ∧
  zbox_file_curr_version f = k + 1

/-- A concrete repository used to instantiate the hypothesised theorems:
freshly created with a default opener (plus the create flag) as
`tests/ffi.c`'s `test_file` does. -/
def demoRepo : Repo :=
  newRepo (zbox_opener_create zbox_create_opener true) "mem://repo2" "pwd" 0

/-- `demoRepo` after creating the file `/file` at time 1. -/
def demoRepo1 : Repo :=
  { demoRepo with root := .dir [("file", .file [⟨1, [], 1⟩] 1 1)] 0 0 }

theorem padTruncate_length (c : List Nat) (n : Nat) :
    (padTruncate c n).length = n := by
  simp [padTruncate]
  omega

theorem writeAt_nil_zero (buf : List Nat) : writeAt [] 0 buf = buf := by
  simp [writeAt]

theorem commitVersion_getLastD (vs : List Version) (limit : Nat)
    (v : Version) (h1 : 1 ≤ limit) (h2 : vs.length ≤ limit) :
    (commitVersion vs limit v).getLastD Version.default0 = v := by
  unfold commitVersion
  simp only [List.length_append, List.length_cons, List.length_nil,
    Nat.zero_add]
  by_cases h : limit < vs.length + 1
  · simp only [if_pos h]
    match vs with
    | [] => exact absurd h (by simp only [List.length_nil]; omega)
    | x :: vs' => simp [List.getLast?_concat]
  · simp [if_neg h, List.getLast?_concat]

/-- C7: for every file handle and byte sequence, `writeOnce` produces
exactly the state of `write` followed by `finish` — in particular the
resulting metadata and the committed version's content coincide. -/
theorem write_once_eq_write_finish (f : FileHandle) (buf : List Nat)
    (t : Nat) :
    zbox_file_write_once f buf t =
      zbox_file_finish (zbox_file_write f buf) t ∧
    zbox_file_metadata (zbox_file_write_once f buf t) =
      zbox_file_metadata (zbox_file_finish (zbox_file_write f buf) t) ∧
    (zbox_file_write_once f buf t).currContent =
      (zbox_file_finish (zbox_file_write f buf) t).currContent := by
  refine ⟨rfl, rfl, rfl⟩

/-- C10: after writing `B` from offset 0 on a fresh file and committing,
the cursor still sits at `len B`, so an immediate read returns 0 bytes,
and reading the content back needs an explicit seek to 0 first. -/
theorem finish_keeps_cursor (B : List Nat) (lim t0 t1 k : Nat) :
    (zbox_file_finish (zbox_file_write (newFileHandle lim t0) B) t1).pos
        = B.length ∧
    (zbox_file_read
        (zbox_file_finish (zbox_file_write (newFileHandle lim t0) B) t1)
        k).1 = [] ∧
    (zbox_file_read
        (zbox_file_seek
          (zbox_file_finish (zbox_file_write (newFileHandle lim t0) B) t1)
          0 .set).2 B.length).1 = B := by
  have hf : zbox_file_finish (zbox_file_write (newFileHandle lim t0) B) t1 =
      { versions := commitVersion [⟨1, [], t0⟩] lim ⟨2, B, t1⟩, limit := lim,
        pos := B.length, working := none, created := t0, modified := t1 } := by
    simp [zbox_file_finish, zbox_file_write, newFileHandle,
      FileHandle.effContent, FileHandle.currContent,
      FileHandle.currVersionRecord, zbox_file_curr_version, writeAt]
  have hv : (commitVersion [⟨1, [], t0⟩] lim ⟨2, B, t1⟩).getLastD
      Version.default0 = ⟨2, B, t1⟩ := by
    unfold commitVersion
    simp only [List.singleton_append, List.length_cons, List.length_nil]
    by_cases h : lim < 0 + 1 + 1 <;> simp [h]
  rw [List.getLastD_eq_getLast?] at hv
  rw [hf]
  refine ⟨rfl, ?_, ?_⟩
  · simp [zbox_file_read, FileHandle.currContent,
      FileHandle.currVersionRecord, hv]
  · simp [zbox_file_seek, zbox_file_read, FileHandle.currContent,
      FileHandle.currVersionRecord, hv]

/-- C4: round-trip on a newly created file (default version limit):
`write(B); finish(); seek(0, start); read(len B)` returns exactly `B`, and
the history after the finish has length 2 — the initial empty version 1
plus the newly committed version. -/
theorem round_trip (B : List Nat) (t0 t1 : Nat) :
    (zbox_file_history
        (zbox_file_finish
          (zbox_file_write (newFileHandle zbox_create_opener.versionLimit t0)
            B) t1)).length = 2 ∧
    (zbox_file_read
        (zbox_file_seek
          (zbox_file_finish
            (zbox_file_write
              (newFileHandle zbox_create_opener.versionLimit t0) B) t1)
          0 .set).2 B.length).1 = B := by
  have hf : zbox_file_finish
      (zbox_file_write (newFileHandle zbox_create_opener.versionLimit t0) B)
      t1 =
      { versions := [⟨1, [], t0⟩, ⟨2, B, t1⟩], limit := 10, pos := B.length,
        working := none, created := t0, modified := t1 } := by
    simp [zbox_file_finish, zbox_file_write, newFileHandle,
      FileHandle.effContent, FileHandle.currContent,
      FileHandle.currVersionRecord, zbox_file_curr_version, writeAt,
      commitVersion, zbox_create_opener]
  rw [hf]
  constructor
  · simp [zbox_file_history]
  · simp [zbox_file_seek, zbox_file_read, FileHandle.currContent,
      FileHandle.currVersionRecord]

/-- C1 counterexample: on a file whose committed current version has
length 3, `setLen 2` with no subsequent `finish` already changes
`metadata().len` to 2 — the repository's test (`tests/ffi.c` lines
224–229) asserts exactly this behaviour, so the new length is observable
before any `finish`, contradicting the claim. -/
theorem set_len_metadata_cex :
    (zbox_file_metadata
        (zbox_file_finish
          (zbox_file_write (newFileHandle 10 0) [1, 2, 3]) 1)).len = 3 ∧
    (zbox_file_finish
        (zbox_file_write (newFileHandle 10 0) [1, 2, 3]) 1).working
      = none ∧
    (zbox_file_metadata
        (zbox_file_set_len
          (zbox_file_finish
            (zbox_file_write (newFileHandle 10 0) [1, 2, 3]) 1)
          2 2)).len = 2 := by
  decide

/-- C1 amended: `setLen` truncates to a smaller length and zero-fills to a
larger one, and commits at once — `metadata().len` equals the new length
immediately, with no `finish()` required. -/
theorem set_len_immediate (f : FileHandle) (n t : Nat)
    (h1 : 1 ≤ f.limit) (h2 : f.versions.length ≤ f.limit) :
    (zbox_file_metadata (zbox_file_set_len f n t)).len = n ∧
    (zbox_file_set_len f n t).currContent = padTruncate f.effContent n ∧
    (zbox_file_set_len f n t).working = none := by
  have hget : (commitVersion f.versions f.limit
      ⟨zbox_file_curr_version f + 1, padTruncate f.effContent n, t⟩).getLastD
        Version.default0 =
      ⟨zbox_file_curr_version f + 1, padTruncate f.effContent n, t⟩ :=
    commitVersion_getLastD _ _ _ h1 h2
  rw [List.getLastD_eq_getLast?] at hget
  refine ⟨?_, ?_, rfl⟩
  · simp [zbox_file_metadata, zbox_file_set_len, FileHandle.currContent,
      FileHandle.currVersionRecord, hget, padTruncate_length]
  · simp [zbox_file_set_len, FileHandle.currContent,
      FileHandle.currVersionRecord, hget]

/-- Witness for the amended C1 at a concrete input. -/
theorem set_len_immediate_witness :
    (1 ≤ (newFileHandle 10 0).limit ∧
      (newFileHandle 10 0).versions.length ≤ (newFileHandle 10 0).limit) ∧
    (zbox_file_metadata (zbox_file_set_len (newFileHandle 10 0) 5 1)).len
      = 5 :=
  ⟨⟨by decide, by decide⟩,
    (set_len_immediate (newFileHandle 10 0) 5 1 (by decide) (by decide)).1⟩

theorem cycleInv_init (N t0 : Nat) (hN : 1 ≤ N) :
    cycleInv N 0 (newFileHandle N t0) := by
  have hmin : min (0 + 1) N = 1 := by omega
  refine ⟨rfl, rfl, ?_, ?_, rfl⟩
  · simp [newFileHandle, hmin]
  · simp [newFileHandle, hmin]

theorem cycleInv_step (N k : Nat) (hN : 1 ≤ N) (f : FileHandle)
    (bt : List Nat × Nat) (h : cycleInv N k f) :
    cycleInv N (k + 1) (writeFinishCycle f bt) := by
  obtain ⟨hw, hl, hlen, hmap, hcur⟩ := h
  have hm1 : 1 ≤ min (k + 1) N := by omega
  have hnum : (f.versions.getLast?.getD Version.default0).num = k + 1 := by
    have h0 := hcur
    unfold zbox_file_curr_version FileHandle.currVersionRecord at h0
    rw [List.getLastD_eq_getLast?] at h0
    exact h0
  have hfin : writeFinishCycle f bt =
      { versions := commitVersion f.versions N
          ⟨k + 1 + 1, writeAt f.effContent f.pos bt.1, bt.2⟩,
        limit := N, pos := f.pos + bt.1.length, working := none,
        created := f.created, modified := bt.2 } := by
    simp [writeFinishCycle, zbox_file_finish, zbox_file_write,
      zbox_file_curr_version, FileHandle.currVersionRecord, hnum, hl]
  have hvslen : f.versions.length = min (k + 1) N := hlen
  have hcommit : (commitVersion f.versions N
      ⟨k + 1 + 1, writeAt f.effContent f.pos bt.1, bt.2⟩).getLastD
        Version.default0 =
      ⟨k + 1 + 1, writeAt f.effContent f.pos bt.1, bt.2⟩ :=
    commitVersion_getLastD _ _ _ hN (by omega)
  rw [hfin]
  refine ⟨rfl, rfl, ?_, ?_, ?_⟩
  · unfold commitVersion
    by_cases hc : N < (f.versions ++
        [(⟨k + 1 + 1, writeAt f.effContent f.pos bt.1, bt.2⟩ :
          Version)]).length
    · simp only [if_pos hc]
      simp only [List.length_append, List.length_cons, List.length_nil] at hc
      simp [List.length_tail]
      omega
    · simp only [if_neg hc]
      simp only [List.length_append, List.length_cons, List.length_nil] at hc
      simp
      omega
  · unfold commitVersion
    by_cases hc : N < (f.versions ++
        [(⟨k + 1 + 1, writeAt f.effContent f.pos bt.1, bt.2⟩ :
          Version)]).length
    · simp only [if_pos hc]
      simp only [List.length_append, List.length_cons, List.length_nil] at hc
      -- eviction case: the window was already full, so min (k+1) N = N
      have hmN : min (k + 1) N = N := by omega
      have hmN' : min (k + 1 + 1) N = N := by omega
      rw [List.map_tail, List.map_append, hmap, hmN, hmN']
      have hNsucc : N = (N - 1) + 1 := by omega
      rw [show List.range' (k + 2 - N) N = List.range' (k + 2 - N) ((N-1)+1)
            by rw [← hNsucc],
          List.range'_succ]
      simp only [List.map_cons, List.map_nil, List.cons_append,
        List.tail_cons]
      rw [show k + 1 + 2 - N = (k + 2 - N + 1) by omega]
      rw [show List.range' (k + 2 - N + 1) N =
            List.range' (k + 2 - N + 1) (N - 1) ++ [k + 2 - N + 1 + (N - 1)]
            by rw [← List.range'_1_concat, ← hNsucc]]
      congr 1
      congr 1
      omega
    · simp only [if_neg hc]
      simp only [List.length_append, List.length_cons, List.length_nil] at hc
      -- no eviction: the window still grows, so min (k+1) N = k+1
      have hmk : min (k + 1) N = k + 1 := by omega
      have hmk' : min (k + 1 + 1) N = k + 2 := by omega
      rw [List.map_append, hmap, hmk, hmk']
      simp only [List.map_cons, List.map_nil]
      rw [show k + 1 + 2 - (k + 2) = 1 by omega,
          show k + 2 - (k + 1) = 1 by omega]
      rw [show List.range' 1 (k + 2) = List.range' 1 (k + 1) ++ [1 + (k + 1)]
            from List.range'_1_concat 1 (k + 1)]
      congr 2
      omega
  · show (_ : FileHandle).currVersionRecord.num = k + 1 + 1
    unfold FileHandle.currVersionRecord
    rw [hcommit]

theorem cycleInv_run (N : Nat) (hN : 1 ≤ N) :
    ∀ (l : List (List Nat × Nat)) (k : Nat) (f : FileHandle),
      cycleInv N k f → cycleInv N (k + l.length) (runCycles f l) := by
  intro l
  induction l with
  | nil => intro k f h; simpa [runCycles] using h
  | cons bt l ih =>
      intro k f h
      have h1 := cycleInv_step N k hN f bt h
      have h2 := ih (k + 1) (writeFinishCycle f bt) h1
      simpa [runCycles, List.foldl_cons, Nat.add_comm, Nat.add_assoc,
        Nat.add_left_comm] using h2

/-- C2: with version limit `N ≥ 1`, after any sequence of write+finish
cycles the retained count is `min (cycles+1) N` — never exceeding `N` —
the retained versions are exactly the `min (cycles+1) N` most recent,
consecutively numbered with the oldest evicted first, the current version
`cycles+1` is always retained, and `N+1` cycles leave exactly `N`. -/
theorem version_limit_retention (N : Nat) (hN : 1 ≤ N) (t0 : Nat)
    (l : List (List Nat × Nat)) :
    (runCycles (newFileHandle N t0) l).versions.length
        = min (l.length + 1) N ∧
    (runCycles (newFileHandle N t0) l).versions.map Version.num =
      List.range' (l.length + 2 - min (l.length + 1) N)
        (min (l.length + 1) N) ∧
    zbox_file_curr_version (runCycles (newFileHandle N t0) l)
        = l.length + 1 ∧
    (l.length = N + 1 →
      (runCycles (newFileHandle N t0) l).versions.length = N) := by
  have h := cycleInv_run N hN l 0 (newFileHandle N t0)
    (cycleInv_init N t0 hN)
  rw [Nat.zero_add] at h
  obtain ⟨hw, hl, hlen, hmap, hcur⟩ := h
  refine ⟨hlen, hmap, hcur, fun he => ?_⟩
  rw [hlen]
  omega

/-- Witness for C2 at `N = 2` with three write+finish cycles. -/
theorem version_limit_retention_witness :
    1 ≤ 2 ∧
    (runCycles (newFileHandle 2 0)
      [([1], 1), ([2], 2), ([3], 3)]).versions.length = 2 :=
  ⟨by decide, by
    rw [(version_limit_retention 2 (by decide) 0
      [([1], 1), ([2], 2), ([3], 3)]).1]
    decide⟩

/-- C3 counterexample: the default opener's version limit is not 1, and a
single write+finish cycle on a file of a default-opened repository leaves
two retained versions — as `tests/ffi.c` (`test_file`, history assertion
after write and finish) requires — not at most one. -/
theorem default_version_limit_cex :
    zbox_create_opener.versionLimit ≠ 1 ∧
    demoRepo.versionLimit ≠ 1 ∧
    (writeFinishCycle (newFileHandle demoRepo.versionLimit 0)
      ([1, 2, 3], 1)).versions.length = 2 := by
  decide

/-- C3 amended: an opener consumed by `open` without the version limit
having been set yields the default limit of 10 (not 1): a file in such a
repository retains at most ten versions, and after one write+finish cycle
it retains two — the initial empty version plus the new one. -/
theorem default_version_limit (uri pwd : String) (t t0 : Nat)
    (l : List (List Nat × Nat)) :
    zbox_open_repo none (zbox_opener_create zbox_create_opener true)
        uri pwd t
      = .ok (newRepo (zbox_opener_create zbox_create_opener true)
          uri pwd t) ∧
    (newRepo (zbox_opener_create zbox_create_opener true)
        uri pwd t).versionLimit = 10 ∧
    (runCycles (newFileHandle 10 t0) l).versions.length ≤ 10 ∧
    (writeFinishCycle (newFileHandle 10 t0) ([1, 2, 3], t)).versions.length
      = 2 := by
  refine ⟨rfl, rfl, ?_, ?_⟩
  · have h := cycleInv_run 10 (by omega) l 0 (newFileHandle 10 t0)
      (cycleInv_init 10 t0 (by omega))
    obtain ⟨_, _, hlen, _, _⟩ := h
    rw [hlen]
    omega
  · have hv : (commitVersion [⟨1, [], t0⟩] 10 ⟨2, writeAt [] 0 [1, 2, 3], t⟩)
        = [⟨1, [], t0⟩, ⟨2, writeAt [] 0 [1, 2, 3], t⟩] := by
      simp [commitVersion]
    simp [writeFinishCycle, zbox_file_finish, zbox_file_write,
      newFileHandle, FileHandle.effContent, FileHandle.currContent,
      FileHandle.currVersionRecord, zbox_file_curr_version, hv,
      commitVersion]

theorem lookupChild_replaceChild (cs : List (String × FNode)) (name : String)
    (child c' : FNode) (h : lookupChild cs name = some child) :
    lookupChild (replaceChild cs name c') name = some c' := by
  induction cs with
  | nil => simp [lookupChild] at h
  | cons hd tl ih =>
      obtain ⟨n, c⟩ := hd
      by_cases hn : n = name
      · simp [lookupChild, replaceChild, hn]
      · simp only [lookupChild, replaceChild, if_neg hn] at h ⊢
        exact ih h

theorem lookupChild_append_none (cs : List (String × FNode)) (name : String)
    (x : FNode) (h : lookupChild cs name = none) :
    lookupChild (cs ++ [(name, x)]) name = some x := by
  induction cs with
  | nil => simp [lookupChild]
  | cons hd tl ih =>
      obtain ⟨n, c⟩ := hd
      by_cases hn : n = name
      · simp [lookupChild, if_pos hn] at h
      · simp only [List.cons_append, lookupChild, if_neg hn] at h ⊢
        exact ih h

theorem splitLast_eq : ∀ (p : List String) {parent : List String}
    {name : String}, splitLast p = some (parent, name) →
    p = parent ++ [name] := by
  intro p
  induction p with
  | nil => intro parent name h; simp [splitLast] at h
  | cons x xs ih =>
      intro parent name h
      cases xs with
      | nil =>
          simp [splitLast] at h
          obtain ⟨h1, h2⟩ := h
          subst h1
          subst h2
          rfl
      | cons y ys =>
          simp only [splitLast] at h
          cases hs : splitLast (y :: ys) with
          | none => rw [hs] at h; simp at h
          | some pl =>
              rw [hs] at h
              simp at h
              obtain ⟨h1, h2⟩ := h
              have hys := ih hs
              rw [← h1, ← h2]
              simp [hys]

theorem findNode_append (p q : List String) : ∀ n : FNode,
    findNode n (p ++ q) = (findNode n p).bind fun n2 => findNode n2 q := by
  induction p with
  | nil => intro n; simp [findNode]
  | cons name rest ih =>
      intro n
      cases n with
      | file vs c m => simp [findNode]
      | dir cs c m =>
          cases hl : lookupChild cs name with
          | none => simp [findNode, hl]
          | some child => simp [findNode, hl, ih]

theorem modifyDirAt_findNode : ∀ (p : List String) (n n' : FNode)
    (g : List (String × FNode) → Except ZboxError (List (String × FNode))),
    modifyDirAt n p g = .ok n' →
    ∃ cs cs' c m, findNode n p = some (.dir cs c m) ∧ g cs = .ok cs' ∧
      findNode n' p = some (.dir cs' c m) := by
  intro p
  induction p with
  | nil =>
      intro n n' g h
      cases n with
      | file vs c m => simp [modifyDirAt] at h
      | dir cs c m =>
          cases hf : g cs with
          | error e => simp [modifyDirAt, hf, Except.map] at h
          | ok cs' =>
              simp only [modifyDirAt, hf, Except.map, Except.ok.injEq] at h
              subst h
              exact ⟨cs, cs', c, m, rfl, hf, rfl⟩
  | cons name rest ih =>
      intro n n' g h
      cases n with
      | file vs c m => simp [modifyDirAt] at h
      | dir cs c m =>
          cases hl : lookupChild cs name with
          | none => simp [modifyDirAt, hl] at h
          | some child =>
              cases hm : modifyDirAt child rest g with
              | error e => simp [modifyDirAt, hl, hm, Except.map] at h
              | ok child' =>
                  simp only [modifyDirAt, hl, hm, Except.map,
                    Except.ok.injEq] at h
                  subst h
                  obtain ⟨cs2, cs2', c2, m2, h1, h2, h3⟩ :=
                    ih child child' g hm
                  refine ⟨cs2, cs2', c2, m2, ?_, h2, ?_⟩
                  · simp [findNode, hl, h1]
                  · simp [findNode,
                      lookupChild_replaceChild cs name child child' hl, h3]

theorem createFileAt_findNode (root : FNode) (p : List String) (t : Nat)
    (root' : FNode) (h : createFileAt root p t = .ok root') :
    findNode root' p = some (.file [⟨1, [], t⟩] t t) := by
  unfold createFileAt at h
  cases hs : splitLast p with
  | none => rw [hs] at h; simp at h
  | some pn =>
      obtain ⟨parent, name⟩ := pn
      rw [hs] at h
      obtain ⟨cs, cs', c, m, h1, h2, h3⟩ :=
        modifyDirAt_findNode parent root root' _ h
      cases hlc : lookupChild cs name with
      | some x => simp [hlc] at h2
      | none =>
          simp only [hlc, Option.isSome_none, Bool.false_eq_true, if_false,
            Except.ok.injEq] at h2
          have hp := splitLast_eq p hs
          rw [hp, findNode_append, h3, ← h2]
          simp [findNode, Option.bind,
            lookupChild_append_none cs name _ hlc]

/-- C5: whenever `createFile` succeeds, the returned handle and the node
now at the path report length 0, ftype File, one single version numbered 1
of length 0, and current version 1. -/
theorem create_file_fresh (r : Repo) (p : List String) (t : Nat)
    (r' : Repo) (fh : FileHandle)
    (h : zbox_repo_create_file r p t = .ok (r', fh)) :
    zbox_file_metadata fh = ⟨.file, 0, 1, t, t⟩ ∧
    zbox_file_history fh = [⟨1, 0, t⟩] ∧
    zbox_file_curr_version fh = 1 ∧
    zbox_repo_metadata r' p = .ok ⟨.file, 0, 1, t, t⟩ ∧
    zbox_repo_history r' p = .ok [⟨1, 0, t⟩] := by
  unfold zbox_repo_create_file at h
  by_cases hro : r.readOnly
  · simp [hro] at h
  · simp only [hro, Bool.false_eq_true, if_false] at h
    cases hc : createFileAt r.root p t with
    | error e => rw [hc] at h; simp [Except.map] at h
    | ok root' =>
        rw [hc] at h
        simp only [Except.map, Except.ok.injEq, Prod.mk.injEq] at h
        obtain ⟨hr', hfh⟩ := h
        have hfind := createFileAt_findNode r.root p t root' hc
        refine ⟨?_, ?_, ?_, ?_, ?_⟩
        · rw [← hfh]
          rfl
        · rw [← hfh]
          rfl
        · rw [← hfh]
          rfl
        · rw [← hr']
          simp [zbox_repo_metadata, hfind, metadataOf]
        · rw [← hr']
          simp [zbox_repo_history, hfind]

/-- Witness for C5: creating `/file` in a fresh default repository. -/
theorem create_file_fresh_witness :
    zbox_repo_metadata demoRepo1 ["file"] = .ok ⟨.file, 0, 1, 1, 1⟩ ∧
    zbox_file_metadata (newFileHandle 10 1) = ⟨.file, 0, 1, 1, 1⟩ :=
  ⟨(create_file_fresh demoRepo ["file"] 1 demoRepo1 (newFileHandle 10 1)
      rfl).2.2.2.1,
    (create_file_fresh demoRepo ["file"] 1 demoRepo1 (newFileHandle 10 1)
      rfl).1⟩

/-- C6: creating children `/file`, `/dir`, `/dir1/dir2/dir3` in that order
and listing `/` returns exactly the three immediate children, in creation
order — file first, not lexicographic — each with full path, base name and
metadata. -/
theorem read_dir_creation_order :
    (do
      let rf ← zbox_repo_create_file demoRepo ["file"] 1
      let r2 ← zbox_repo_create_dir rf.1 ["dir"] 2
      let r3 ← zbox_repo_create_dir_all r2 ["dir1", "dir2", "dir3"] 3
      zbox_repo_read_dir r3 [] : Except ZboxError (List DirEntry)) =
    .ok [⟨["file"], "file", ⟨.file, 0, 1, 1, 1⟩⟩,
         ⟨["dir"], "dir", ⟨.dir, 0, 0, 2, 2⟩⟩,
         ⟨["dir1"], "dir1", ⟨.dir, 0, 0, 3, 3⟩⟩] := by
  rfl

/-- C8: `resetPassword` with a wrong old password returns the
`wrongPassword` code and leaves the repository — including the key
wrapping — unchanged, so a subsequent open with the old password still
succeeds and yields the same repository state. -/
theorem reset_password_wrong_atomic (r : Repo) (oldPwd newPwd : String)
    (ops : OpsLimit) (mem : MemLimit) (o : Opener) (t : Nat)
    (hw : oldPwd ≠ r.pwd) (ho : o.createNew = false) :
    zbox_repo_reset_password_c r oldPwd newPwd ops mem
        = (errCode .wrongPassword, r) ∧
    zbox_open_repo (some r) o r.uri r.pwd t
        = .ok { r with readOnly := o.readOnly } := by
  constructor
  · simp [zbox_repo_reset_password_c, zbox_repo_reset_password, hw]
  · simp [zbox_open_repo, ho]

/-- Witness for C8: a wrong-password reset on the demo repository. -/
theorem reset_password_wrong_atomic_witness :
    ("bad" ≠ demoRepo.pwd ∧ zbox_create_opener.createNew = false) ∧
    zbox_repo_reset_password_c demoRepo "bad" "new pwd"
        .interactive .moderate
      = (errCode .wrongPassword, demoRepo) :=
  ⟨⟨by decide, rfl⟩,
    (reset_password_wrong_atomic demoRepo "bad" "new pwd"
      .interactive .moderate zbox_create_opener 0 (by decide) rfl).1⟩

theorem modifyDirAt_isDirNode (p : List String) (n n' : FNode)
    (g : List (String × FNode) → Except ZboxError (List (String × FNode)))
    (h : modifyDirAt n p g = .ok n') : n'.isDirNode = true := by
  cases n with
  | file vs c m => cases p <;> simp [modifyDirAt] at h
  | dir cs c m =>
      cases p with
      | nil =>
          cases hf : g cs with
          | error e => simp [modifyDirAt, hf, Except.map] at h
          | ok cs' =>
              simp only [modifyDirAt, hf, Except.map, Except.ok.injEq] at h
              subst h
              rfl
      | cons name rest =>
          cases hl : lookupChild cs name with
          | none => simp [modifyDirAt, hl] at h
          | some child =>
              cases hm : modifyDirAt child rest g with
              | error e => simp [modifyDirAt, hl, hm, Except.map] at h
              | ok child' =>
                  simp only [modifyDirAt, hl, hm, Except.map,
                    Except.ok.injEq] at h
                  subst h
                  rfl

theorem createDirAllNode_isDirNode (p : List String) (n n' : FNode)
    (t : Nat) (hd : n.isDirNode = true)
    (h : createDirAllNode n p t = .ok n') : n'.isDirNode = true := by
  cases n with
  | file vs c m => simp [FNode.isDirNode] at hd
  | dir cs c m =>
      cases p with
      | nil =>
          simp only [createDirAllNode, Except.ok.injEq] at h
          subst h
          rfl
      | cons name rest =>
          cases hl : lookupChild cs name with
          | some child =>
              cases hm : createDirAllNode child rest t with
              | error e =>
                  simp [createDirAllNode, hl, hm, Except.map] at h
              | ok child' =>
                  simp only [createDirAllNode, hl, hm, Except.map,
                    Except.ok.injEq] at h
                  subst h
                  rfl
          | none =>
              cases hm : createDirAllNode (.dir [] t t) rest t with
              | error e =>
                  simp [createDirAllNode, hl, hm, Except.map] at h
              | ok sub =>
                  simp only [createDirAllNode, hl, hm, Except.map,
                    Except.ok.injEq] at h
                  subst h
                  rfl

theorem createFileAt_isDir (root : FNode) (p : List String) (t : Nat)
    (n' : FNode) (h : createFileAt root p t = .ok n') :
    n'.isDirNode = true := by
  unfold createFileAt at h
  cases hs : splitLast p with
  | none => rw [hs] at h; simp at h
  | some pn =>
      obtain ⟨parent, name⟩ := pn
      rw [hs] at h
      exact modifyDirAt_isDirNode parent root n' _ h

theorem createDirAt_isDir (root : FNode) (p : List String) (t : Nat)
    (n' : FNode) (h : createDirAt root p t = .ok n') :
    n'.isDirNode = true := by
  unfold createDirAt at h
  cases hs : splitLast p with
  | none => rw [hs] at h; simp at h
  | some pn =>
      obtain ⟨parent, name⟩ := pn
      rw [hs] at h
      exact modifyDirAt_isDirNode parent root n' _ h

theorem removeFileAt_isDir (root : FNode) (p : List String)
    (n' : FNode) (h : removeFileAt root p = .ok n') :
    n'.isDirNode = true := by
  unfold removeFileAt at h
  cases hs : splitLast p with
  | none => rw [hs] at h; simp at h
  | some pn =>
      obtain ⟨parent, name⟩ := pn
      rw [hs] at h
      exact modifyDirAt_isDirNode parent root n' _ h

theorem removeDirAt_isDir (root : FNode) (p : List String)
    (n' : FNode) (h : removeDirAt root p = .ok n') :
    n'.isDirNode = true := by
  unfold removeDirAt at h
  cases hs : splitLast p with
  | none => rw [hs] at h; simp at h
  | some pn =>
      obtain ⟨parent, name⟩ := pn
      rw [hs] at h
      exact modifyDirAt_isDirNode parent root n' _ h

theorem removeDirAllAt_isDir (root : FNode) (p : List String)
    (n' : FNode) (h : removeDirAllAt root p = .ok n') :
    n'.isDirNode = true := by
  unfold removeDirAllAt at h
  cases hs : splitLast p with
  | none => rw [hs] at h; simp at h
  | some pn =>
      obtain ⟨parent, name⟩ := pn
      rw [hs] at h
      exact modifyDirAt_isDirNode parent root n' _ h

theorem writeFinishAt_isDir (root : FNode) (p : List String) (limit : Nat)
    (buf : List Nat) (t : Nat) (n' : FNode)
    (h : writeFinishAt root p limit buf t = .ok n') :
    n'.isDirNode = true := by
  unfold writeFinishAt at h
  cases hs : splitLast p with
  | none => rw [hs] at h; simp at h
  | some pn =>
      obtain ⟨parent, name⟩ := pn
      rw [hs] at h
      exact modifyDirAt_isDirNode parent root n' _ h

theorem renameAt_isDir (root : FNode) (src dst : List String)
    (n' : FNode) (h : renameAt root src dst = .ok n') :
    n'.isDirNode = true := by
  unfold renameAt at h
  cases hs : splitLast src with
  | none => rw [hs] at h; simp at h
  | some sn =>
      obtain ⟨sp, sname⟩ := sn
      rw [hs] at h
      cases ht : splitLast dst with
      | none => rw [ht] at h; simp at h
      | some tn =>
          obtain ⟨tp, tname⟩ := tn
          rw [ht] at h
          cases hf : findNode root src with
          | none => rw [hf] at h; simp at h
          | some node =>
              rw [hf] at h
              by_cases he : (findNode root dst).isSome
              · simp [he] at h
              · simp only [he, Bool.false_eq_true, if_false] at h
                cases hm : modifyDirAt root sp
                    (fun cs => .ok (removeChild cs sname)) with
                | error e => rw [hm] at h; simp at h
                | ok root1 =>
                    rw [hm] at h
                    exact modifyDirAt_isDirNode tp root1 n' _ h

theorem copyAt_isDir (root : FNode) (src dst : List String) (t : Nat)
    (n' : FNode) (h : copyAt root src dst t = .ok n') :
    n'.isDirNode = true := by
  unfold copyAt at h
  cases hf : findNode root src with
  | none => rw [hf] at h; simp at h
  | some node =>
      rw [hf] at h
      cases node with
      | dir cs c m => simp at h
      | file vs c m =>
          cases ht : splitLast dst with
          | none => rw [ht] at h; simp at h
          | some tn =>
              obtain ⟨tp, tname⟩ := tn
              rw [ht] at h
              exact modifyDirAt_isDirNode tp root n' _ h

theorem guardWrite_root_isDir (r : Repo) (k : Except ZboxError FNode)
    (r' : Repo) (hk : ∀ n', k = .ok n' → n'.isDirNode = true)
    (h : guardWrite r k = .ok r') : r'.root.isDirNode = true := by
  unfold guardWrite at h
  by_cases hro : r.readOnly
  · simp [hro] at h
  · simp only [hro, Bool.false_eq_true, if_false] at h
    cases hk2 : k with
    | error e => rw [hk2] at h; simp [Except.map] at h
    | ok n' =>
        rw [hk2] at h
        simp only [Except.map, Except.ok.injEq] at h
        subst h
        exact hk n' hk2

theorem applyOp_root_isDir (r : Repo) (op : RepoOp)
    (h : r.root.isDirNode = true) :
    (applyOp r op).root.isDirNode = true := by
  cases op with
  | createFile p t =>
      simp only [applyOp]
      cases hx : zbox_repo_create_file r p t with
      | error e => exact h
      | ok rf =>
          unfold zbox_repo_create_file at hx
          by_cases hro : r.readOnly
          · simp [hro] at hx
          · simp only [hro, Bool.false_eq_true, if_false] at hx
            cases hc : createFileAt r.root p t with
            | error e => rw [hc] at hx; simp [Except.map] at hx
            | ok root' =>
                rw [hc] at hx
                simp only [Except.map, Except.ok.injEq] at hx
                subst hx
                exact createFileAt_isDir r.root p t root' hc
  | createDir p t =>
      simp only [applyOp]
      cases hx : zbox_repo_create_dir r p t with
      | error e => exact h
      | ok r' =>
          exact guardWrite_root_isDir r _ r'
            (fun n' hn => createDirAt_isDir r.root p t n' hn) hx
  | createDirAll p t =>
      simp only [applyOp]
      cases hx : zbox_repo_create_dir_all r p t with
      | error e => exact h
      | ok r' =>
          exact guardWrite_root_isDir r _ r'
            (fun n' hn => createDirAllNode_isDirNode p r.root n' t h hn) hx
  | removeFile p =>
      simp only [applyOp]
      cases hx : zbox_repo_remove_file r p with
      | error e => exact h
      | ok r' =>
          exact guardWrite_root_isDir r _ r'
            (fun n' hn => removeFileAt_isDir r.root p n' hn) hx
  | removeDir p =>
      simp only [applyOp]
      cases hx : zbox_repo_remove_dir r p with
      | error e => exact h
      | ok r' =>
          exact guardWrite_root_isDir r _ r'
            (fun n' hn => removeDirAt_isDir r.root p n' hn) hx
  | removeDirAll p =>
      simp only [applyOp]
      cases hx : zbox_repo_remove_dir_all r p with
      | error e => exact h
      | ok r' =>
          exact guardWrite_root_isDir r _ r'
            (fun n' hn => removeDirAllAt_isDir r.root p n' hn) hx
  | renameOp src dst =>
      simp only [applyOp]
      cases hx : zbox_repo_rename r src dst with
      | error e => exact h
      | ok r' =>
          exact guardWrite_root_isDir r _ r'
            (fun n' hn => renameAt_isDir r.root src dst n' hn) hx
  | copyOp src dst t =>
      simp only [applyOp]
      cases hx : zbox_repo_copy r src dst t with
      | error e => exact h
      | ok r' =>
          exact guardWrite_root_isDir r _ r'
            (fun n' hn => copyAt_isDir r.root src dst t n' hn) hx
  | writeFinish p buf t =>
      simp only [applyOp]
      cases hx : zbox_repo_write_finish r p buf t with
      | error e => exact h
      | ok r' =>
          exact guardWrite_root_isDir r _ r'
            (fun n' hn => writeFinishAt_isDir r.root p r.versionLimit
              buf t n' hn) hx
  | resetPwd oldPwd newPwd ops mem =>
      simp only [applyOp]
      unfold zbox_repo_reset_password_c zbox_repo_reset_password
      by_cases hp : oldPwd = r.pwd
      · simpa [hp] using h
      · simpa [hp] using h

theorem foldl_applyOp_isDir (ops : List RepoOp) : ∀ r : Repo,
    r.root.isDirNode = true →
    (ops.foldl applyOp r).root.isDirNode = true := by
  induction ops with
  | nil => intro r h; simpa using h
  | cons op rest ih =>
      intro r h
      simp only [List.foldl_cons]
      exact ih (applyOp r op) (applyOp_root_isDir r op h)

/-- C9: in a freshly created repository — and after any sequence of
repository operations, since the root is never removable — the root path
exists and is a directory, not a file. -/
theorem root_always_dir (o : Opener) (uri pwd : String) (t : Nat)
    (ops : List RepoOp) :
    zbox_repo_path_exists (ops.foldl applyOp (newRepo o uri pwd t)) []
        = true ∧
    zbox_repo_is_dir (ops.foldl applyOp (newRepo o uri pwd t)) []
        = true ∧
    zbox_repo_is_file (ops.foldl applyOp (newRepo o uri pwd t)) []
        = false := by
  have hd : (ops.foldl applyOp (newRepo o uri pwd t)).root.isDirNode
      = true :=
    foldl_applyOp_isDir ops (newRepo o uri pwd t) rfl
  cases hr : (ops.foldl applyOp (newRepo o uri pwd t)).root with
  | file vs c m => rw [hr] at hd; simp [FNode.isDirNode] at hd
  | dir cs c m =>
      refine ⟨?_, ?_, ?_⟩ <;>
        simp [zbox_repo_path_exists, zbox_repo_is_dir, zbox_repo_is_file,
          findNode, hr]
